import Mathlib

/-!
Verification of the datalink-share chain core (`app/main.py`, `app/models.py`).

The development shallowly embeds the pure core of the service:

* a `Json` value type with Python's `json.dumps(..., sort_keys=True)`
  serialization (ASCII output, keys sorted at every nesting level),
* SHA-256 over byte lists, producing the lowercase 64-hex-char digest,
* the data model (`MessageSender`, `Message`, `Block`, `ChainProposal`),
* the operations `calculate_hash`, `is_chain_valid`, `get_majority_chain`,
  `create_genesis`, `send_message`, `share_latest_chain`.

Global mutable state (`chains`, `participants`) becomes an explicit
`ServerState` threaded through the handlers; `datetime.now()` timestamps
become explicit string parameters; `raise HTTPException` before any state
mutation becomes a result constructor returned together with the unchanged
state.
-/

namespace DatalinkShare

/-- JSON values as produced by the service: the shapes that actually flow
through `chains` are null, booleans, ints, strings, arrays and objects
(floats never occur in this core and are omitted). -/
inductive Json where
  | null : Json
  | bool (b : Bool) : Json
  | int (n : Int) : Json
  | str (s : String) : Json
  | arr (items : List Json) : Json
  | obj (fields : List (String × Json)) : Json

/-- Lowercase hex digit, as used both by `json.dumps` escapes and by
`hashlib.sha256(...).hexdigest()`. -/
def hexDigit (n : Nat) : Char :=
  if n < 10 then Char.ofNat (48 + n) else Char.ofNat (87 + n)

/-- Four lowercase hex digits (for a `\uXXXX` escape). -/
def hex4 (n : Nat) : List Char :=
  [hexDigit (n / 4096 % 16), hexDigit (n / 256 % 16), hexDigit (n / 16 % 16), hexDigit (n % 16)]

/-- Escape one character the way Python's `json.dumps` does with its default
`ensure_ascii=True`: backslash, double quote and everything outside
0x20..0x7e is escaped; the output is pure ASCII. -/
def escapeChar (c : Char) : List Char :=
  let n := c.toNat
  if n = 92 then ['\\', '\\']
  else if n = 34 then ['\\', '"']
  else if n = 8 then ['\\', 'b']
  else if n = 9 then ['\\', 't']
  else if n = 10 then ['\\', 'n']
  else if n = 12 then ['\\', 'f']
  else if n = 13 then ['\\', 'r']
  else if n < 32 then '\\' :: 'u' :: hex4 n
  else if n < 127 then [c]
  else if n < 65536 then '\\' :: 'u' :: hex4 n
  else
    ('\\' :: 'u' :: hex4 (55296 + (n - 65536) / 1024)) ++
      ('\\' :: 'u' :: hex4 (56320 + (n - 65536) % 1024))

/-- A JSON string literal: quotes around the escaped characters. -/
def jsonStr (s : String) : String :=
  String.mk ('"' :: s.data.foldr (fun c acc => escapeChar c ++ acc) ['"'])

/-- Code-point lexicographic comparison of character lists — how Python
orders strings when sorting dict keys. -/
def strLtb : List Char → List Char → Bool
  | _, [] => false
  | [], _ :: _ => true
  | a :: as, b :: bs =>
      if a.toNat < b.toNat then true
      else if b.toNat < a.toNat then false
      else strLtb as bs

/-- Python's `<` on strings (code-point lexicographic). -/
def keyLt (a b : String) : Bool := strLtb a.data b.data

/-- Insert a field into a key-sorted field list, keeping the sort stable
(equal keys keep their relative order, like Python's stable `sorted`). -/
def insertField (p : String × Json) : List (String × Json) → List (String × Json)
  | [] => [p]
  | q :: rest => if keyLt q.1 p.1 then q :: insertField p rest else p :: q :: rest

/-- Stable insertion sort of object fields by key, modelling the
`sort_keys=True` ordering of `json.dumps`. -/
def sortFields (fs : List (String × Json)) : List (String × Json) :=
  fs.foldr insertField []

mutual

/-- Recursively sort the fields of every object in a JSON value.
`json.dumps(v, sort_keys=True)` serializes exactly like serializing
`sortJson v` without sorting. -/
def sortJson : Json → Json
  | .null => .null
  | .bool b => .bool b
  | .int n => .int n
  | .str s => .str s
  | .arr items => .arr (sortJsonList items)
  | .obj fields => .obj (sortFields (sortJsonFields fields))

/-- `sortJson` mapped over array items. -/
def sortJsonList : List Json → List Json
  | [] => []
  | j :: rest => sortJson j :: sortJsonList rest

/-- `sortJson` mapped over the values of object fields. -/
def sortJsonFields : List (String × Json) → List (String × Json)
  | [] => []
  | (k, v) :: rest => (k, sortJson v) :: sortJsonFields rest

end

mutual

/-- Serialize a JSON value with Python's default separators
(`", "` between items, `": "` after a key). Objects are emitted in the
stored field order; `dumps` below sorts first. -/
def dumpsJson : Json → String
  | .null => "null"
  | .bool true => "true"
  | .bool false => "false"
  | .int n => toString n
  | .str s => jsonStr s
  | .arr items => "[" ++ dumpsItems items ++ "]"
  | .obj fields => "\x7b" ++ dumpsFieldList fields ++ "\x7d"

/-- Array items joined by `", "`. -/
def dumpsItems : List Json → String
  | [] => ""
  | [j] => dumpsJson j
  | j :: rest => dumpsJson j ++ ", " ++ dumpsItems rest

/-- Object fields joined by `", "`, each as `"key": value`. -/
def dumpsFieldList : List (String × Json) → String
  | [] => ""
  | [(k, v)] => jsonStr k ++ ": " ++ dumpsJson v
  | (k, v) :: rest => jsonStr k ++ ": " ++ dumpsJson v ++ ", " ++ dumpsFieldList rest

end

/-- `json.dumps(j, sort_keys=True)` with the default separators and
`ensure_ascii=True`. -/
def dumps (j : Json) : String :=
  dumpsJson (sortJson j)

/-! ### SHA-256 (`hashlib.sha256(...).hexdigest()`)

Standard FIPS 180-4 SHA-256 over a list of bytes, with 32-bit words as
`Nat` reduced mod 2^32. -/

/-- Truncate to a 32-bit word. -/
def w32 (x : Nat) : Nat := x % 4294967296

/-- Rotate a 32-bit word right by `n` positions. -/
def rotr (n x : Nat) : Nat := w32 ((x >>> n) ||| (x <<< (32 - n)))

def bigSigma0 (x : Nat) : Nat := rotr 2 x ^^^ rotr 13 x ^^^ rotr 22 x

def bigSigma1 (x : Nat) : Nat := rotr 6 x ^^^ rotr 11 x ^^^ rotr 25 x

def smallSigma0 (x : Nat) : Nat := rotr 7 x ^^^ rotr 18 x ^^^ (x >>> 3)

def smallSigma1 (x : Nat) : Nat := rotr 17 x ^^^ rotr 19 x ^^^ (x >>> 10)

/-- The 64 SHA-256 round constants (fractional cube roots of the first 64
primes, here in decimal). -/
def K256 : List Nat :=
  [1116352408, 1899447441, 3049323471, 3921009573, 961987163,
   1508970993, 2453635748, 2870763221, 3624381080, 310598401,
   607225278, 1426881987, 1925078388, 2162078206, 2614888103,
   3248222580, 3835390401, 4022224774, 264347078, 604807628,
   770255983, 1249150122, 1555081692, 1996064986, 2554220882,
   2821834349, 2952996808, 3210313671, 3336571891, 3584528711,
   113926993, 338241895, 666307205, 773529912, 1294757372,
   1396182291, 1695183700, 1986661051, 2177026350, 2456956037,
   2730485921, 2820302411, 3259730800, 3345764771, 3516065817,
   3600352804, 4094571909, 275423344, 430227734, 506948616,
   659060556, 883997877, 958139571, 1322822218, 1537002063,
   1747873779, 1955562222, 2024104815, 2227730452, 2361852424,
   2428436474, 2756734187, 3204031479, 3329325298]

/-- The eight 32-bit working variables of the compression function. -/
structure Sha256State where
  a : Nat
  b : Nat
  c : Nat
  d : Nat
  e : Nat
  f : Nat
  g : Nat
  h : Nat

/-- The SHA-256 initial hash value (fractional square roots of the first
eight primes, in decimal). -/
def shaInit : Sha256State :=
  ⟨1779033703, 3144134277, 1013904242, 2773480762,
   1359893119, 2600822924, 528734635, 1541459225⟩

/-- One compression round, consuming a (round constant, schedule word) pair. -/
def shaRound (st : Sha256State) (kw : Nat × Nat) : Sha256State :=
  let ch := (st.e &&& st.f) ^^^ ((st.e ^^^ 4294967295) &&& st.g)
  let t1 := w32 (st.h + bigSigma1 st.e + ch + kw.1 + kw.2)
  let maj := (st.a &&& st.b) ^^^ (st.a &&& st.c) ^^^ (st.b &&& st.c)
  let t2 := w32 (bigSigma0 st.a + maj)
  ⟨w32 (t1 + t2), st.a, st.b, st.c, w32 (st.d + t1), st.e, st.f, st.g⟩

/-- Extend the message schedule by `n` more words.  `acc` holds the schedule
so far in reverse (newest word first), so `w[j-2]` is at position 1,
`w[j-7]` at 6, `w[j-15]` at 14 and `w[j-16]` at 15. -/
def extendSchedule : Nat → List Nat → List Nat
  | 0, acc => acc
  | n + 1, acc =>
      let word := w32 (acc.getD 15 0 + smallSigma0 (acc.getD 14 0) + acc.getD 6 0 +
        smallSigma1 (acc.getD 1 0))
      extendSchedule n (word :: acc)

/-- The 64-word message schedule from a chunk's 16 words. -/
def schedule (first16 : List Nat) : List Nat :=
  (extendSchedule 48 first16.reverse).reverse

/-- Compress one 16-word chunk into the running digest. -/
def compress (dg : Sha256State) (chunkWords : List Nat) : Sha256State :=
  let st := (K256.zip (schedule chunkWords)).foldl shaRound dg
  ⟨w32 (dg.a + st.a), w32 (dg.b + st.b), w32 (dg.c + st.c), w32 (dg.d + st.d),
   w32 (dg.e + st.e), w32 (dg.f + st.f), w32 (dg.g + st.g), w32 (dg.h + st.h)⟩

/-- Merkle-Damgard padding: a 0x80 byte, zeros to 56 mod 64, then the bit
length as 8 big-endian bytes. -/
def padBytes (msg : List Nat) : List Nat :=
  let len := msg.length
  let padZeros := (119 - len % 64) % 64
  msg ++ 128 :: List.replicate padZeros 0 ++
    (List.range 8).map (fun i => (len * 8) >>> ((7 - i) * 8) % 256)

/-- Split a padded message into 64-byte chunks (fuel is the list length,
which bounds the number of chunks). -/
def chunksOf64 : Nat → List Nat → List (List Nat)
  | 0, _ => []
  | _, [] => []
  | fuel + 1, b :: rest => ((b :: rest).take 64) :: chunksOf64 fuel ((b :: rest).drop 64)

/-- Group bytes into big-endian 32-bit words. -/
def bytesToWords : List Nat → List Nat
  | b0 :: b1 :: b2 :: b3 :: rest =>
      (b0 * 16777216 + b1 * 65536 + b2 * 256 + b3) :: bytesToWords rest
  | _ => []

/-- The SHA-256 digest of a byte list, as the eight final hash words. -/
def sha256digest (msg : List Nat) : Sha256State :=
  let padded := padBytes msg
  (chunksOf64 padded.length padded).foldl (fun dg chunk => compress dg (bytesToWords chunk))
    shaInit

/-- A 32-bit word as 8 lowercase hex characters. -/
def word32HexChars (w : Nat) : List Char :=
  [hexDigit ((w >>> 28) % 16), hexDigit ((w >>> 24) % 16), hexDigit ((w >>> 20) % 16),
   hexDigit ((w >>> 16) % 16), hexDigit ((w >>> 12) % 16), hexDigit ((w >>> 8) % 16),
   hexDigit ((w >>> 4) % 16), hexDigit (w % 16)]

/-- `hashlib.sha256(msg).hexdigest()`: the digest as 64 lowercase hex
characters. -/
def sha256hex (msg : List Nat) : String :=
  let d := sha256digest msg
  String.mk (word32HexChars d.a ++ word32HexChars d.b ++ word32HexChars d.c ++
    word32HexChars d.d ++ word32HexChars d.e ++ word32HexChars d.f ++
    word32HexChars d.g ++ word32HexChars d.h)

/-- The UTF-8 bytes of a serialized JSON string (`.encode()` in the source).
The serializer escapes every character outside 0x20..0x7e, so its output is
pure ASCII and the UTF-8 bytes are exactly the character codes. -/
def strBytes (s : String) : List Nat := s.data.map Char.toNat

/-! ### Data model (`app/models.py`) -/

/-- `MessageSender`: ipAddress and uuid of a participant. -/
structure MessageSender where
  ipAddress : String
  uuid : String
deriving DecidableEq, Repr

/-- `Message`: sender, recipient, content and timestamp. -/
structure Message where
  sender : MessageSender
  recipient : MessageSender
  content : String
  timestamp : String
deriving DecidableEq, Repr

/-- `Block`: one ledger entry. -/
structure Block where
  index : Int
  previousHash : String
  timestamp : String
  message : Message
  proof : Int
  hash : String
deriving DecidableEq, Repr

/-- `ChainProposal`: a whole proposed ledger; `network` and `status` are
opaque dicts on the wire, modelled as arbitrary JSON values. -/
structure ChainProposal where
  blocks : List Block
  network : Json
  status : Json

/-- `MessageSender.dict()` (pydantic) as a JSON object. -/
def MessageSender.toJson (m : MessageSender) : Json :=
  Json.obj [("ipAddress", Json.str m.ipAddress), ("uuid", Json.str m.uuid)]

/-- `Message.dict()` (pydantic) as a JSON object. -/
def Message.toJson (m : Message) : Json :=
  Json.obj [("sender", m.sender.toJson), ("recipient", m.recipient.toJson),
    ("content", Json.str m.content), ("timestamp", Json.str m.timestamp)]

/-- `Block.dict()` (pydantic) as a JSON object, all six fields. -/
def Block.toJson (b : Block) : Json :=
  Json.obj [("index", Json.int b.index), ("previousHash", Json.str b.previousHash),
    ("timestamp", Json.str b.timestamp), ("message", b.message.toJson),
    ("proof", Json.int b.proof), ("hash", Json.str b.hash)]

/-- `ChainProposal.dict()` as a JSON object. -/
def ChainProposal.toJson (c : ChainProposal) : Json :=
  Json.obj [("blocks", Json.arr (c.blocks.map Block.toJson)), ("network", c.network),
    ("status", c.status)]

/-! ### Core operations (`app/main.py`) -/

/-- `calculate_hash(block)`: sha256 hexdigest of the canonical (sorted-key)
JSON serialization of the five hashed fields; the stored `hash` field is
not part of the input. -/
def calculate_hash (block : Block) : String :=
  sha256hex (strBytes (dumps (Json.obj [
    ("index", Json.int block.index),
    ("previousHash", Json.str block.previousHash),
    ("timestamp", Json.str block.timestamp),
    ("message", block.message.toJson),
    ("proof", Json.int block.proof)])))

/-- The validation loop of `is_chain_valid` from position 1 on: each block's
`previousHash` must equal the recomputed digest of its predecessor, and its
stored `hash` must equal its own recomputed digest. -/
def chain_links (prev : Block) : List Block → Bool
  | [] => true
  | current :: rest =>
      (current.previousHash == calculate_hash prev) &&
        (current.hash == calculate_hash current) && chain_links current rest

/-- `is_chain_valid(blocks)`: non-empty, genesis shape at position 0
(index 1, previousHash "0", stored hash equal to the recomputed digest),
then the pairwise checks of `chain_links`. -/
def is_chain_valid (blocks : List Block) : Bool :=
  match blocks with
  | [] => false
  | b0 :: rest =>
      (b0.index == 1) && (b0.previousHash == "0") &&
        (b0.hash == calculate_hash b0) && chain_links b0 rest

/-- `json.dumps(chain, sort_keys=True)` for a stored chain dict. -/
def dumpsChain (c : ChainProposal) : String := dumps c.toJson

/-- Fuel-based recursion for `counterKeys` (the fuel, at least the list
length, only serves structural termination: filtering the tail never
lengthens it). -/
def counterKeysAux : Nat → List String → List String
  | _, [] => []
  | 0, _ :: _ => []
  | fuel + 1, s :: rest => s :: counterKeysAux fuel (rest.filter (fun t => !(t == s)))

/-- The distinct serialized chains in first-occurrence order: the key order
of `Counter(chains_str)` (Python dicts preserve insertion order). -/
def counterKeys (l : List String) : List String := counterKeysAux l.length l

/-- The fuel is irrelevant once it covers the list length. -/
theorem counterKeysAux_congr :
    ∀ (f1 f2 : Nat) (l : List String), l.length ≤ f1 → l.length ≤ f2 →
      counterKeysAux f1 l = counterKeysAux f2 l := by
  intro f1
  induction f1 with
  | zero =>
      intro f2 l h1 h2
      cases l with
      | nil => cases f2 <;> rfl
      | cons s rest => simp at h1
  | succ n ih =>
      intro f2 l h1 h2
      cases l with
      | nil => cases f2 <;> rfl
      | cons s rest =>
          cases f2 with
          | zero => simp at h2
          | succ m =>
              simp only [counterKeysAux, List.cons.injEq, true_and]
              apply ih
              · exact le_trans (List.length_filter_le _ _) (by simpa using h1)
              · exact le_trans (List.length_filter_le _ _) (by simpa using h2)

/-- The recursion equation of Python's `Counter` key order. -/
theorem counterKeys_cons (s : String) (rest : List String) :
    counterKeys (s :: rest) = s :: counterKeys (rest.filter (fun t => !(t == s))) := by
  show counterKeysAux (s :: rest).length (s :: rest) = _
  simp only [List.length_cons, counterKeysAux]
  rw [counterKeys]
  congr 1
  exact counterKeysAux_congr rest.length (rest.filter (fun t => !(t == s))).length _
    (List.length_filter_le _ _) le_rfl

/-- Python's `max(items, key=count)` over the counter keys: the first key is
the initial candidate and a later key replaces it only with a strictly
greater count, so ties keep the earliest key. `Counter.most_common(1)` uses
exactly this scan. -/
def firstMax (strs : List String) : List String → Option String
  | [] => none
  | k :: ks => some (ks.foldl (fun best s => if strs.count best < strs.count s then s else best) k)

/-- `get_majority_chain()`: `{}` (here `none`) for an empty store; otherwise
serialize every chain, take the most common serialization (first seen wins
ties), and return the chain it deserializes to — modelled as the first
stored chain with that serialization, which is what `json.loads` of it
equals. -/
def get_majority_chain (chains : List ChainProposal) : Option ChainProposal :=
  match chains with
  | [] => none
  | _ :: _ =>
    let strs := chains.map dumpsChain
    match firstMax strs (counterKeys strs) with
    | none => none
    | some winner => chains.find? (fun c => dumpsChain c == winner)

/-- The process-wide mutable state: the proposal store `chains` and the
`participants` set (a list of (ipAddress, uuid) pairs queried only for
membership). -/
structure ServerState where
  chains : List ChainProposal
  participants : List (String × String)

/-- The `network` dict both `create_genesis` and `send_message` attach to a
fresh chain. -/
def networkJson (lastUpdated : String) : Json :=
  Json.obj [("nodes", Json.arr []), ("version", Json.str "1.0.0"),
    ("lastUpdated", Json.str lastUpdated)]

/-- The `status` dict attached to a fresh chain. -/
def statusJson : Json :=
  Json.obj [("isValid", Json.bool true), ("error", Json.null)]

/-- The genesis block built by `create_genesis`: index 1, previousHash "0",
the sentinel message, proof 0 — and stored hash the literal "0" (the
source sets `hash="0"` instead of computing `calculate_hash`). -/
def genesis_block (ts mts : String) : Block :=
  { index := 1, previousHash := "0", timestamp := ts,
    message := { sender := { ipAddress := "0.0.0.0",
                             uuid := "00000000-0000-0000-0000-000000000000" },
                 recipient := { ipAddress := "0.0.0.0",
                                uuid := "00000000-0000-0000-0000-000000000000" },
                 content := "Genesis block", timestamp := mts },
    proof := 0, hash := "0" }

/-- `create_genesis()`: rejected (HTTP 400, `false` here) unless both
`chains` and `participants` are empty; otherwise appends the initial chain
holding only the genesis block. `ts`, `mts`, `netTs` stand for the three
`datetime.now` calls. -/
def create_genesis (st : ServerState) (ts mts netTs : String) : ServerState × Bool :=
  if st.chains.isEmpty && st.participants.isEmpty then
    ({ st with chains := st.chains ++
      [ChainProposal.mk [genesis_block ts mts] (networkJson netTs) statusJson] }, true)
  else (st, false)

/-- Outcome of `send_message`: the new block on success, HTTP 400 when a
participant is unregistered, or the `IndexError` Python raises on
`chains[-1]['blocks'][-1]` when the last chain has no blocks. -/
inductive SendOutcome where
  | ok (newBlock : Block)
  | unregistered
  | indexError
deriving DecidableEq, Repr

/-- `send_message(message)`: check both participants are registered, build
the next block from the tail of the last chain (index +1, previousHash the
recomputed digest of the tail, proof 0, hash computed over the new block),
and append it to the last chain — or start a fresh chain at index 1 with
previousHash "0" when no chain exists. `now`/`netNow` stand for the
`datetime.now` calls. The source's first guard (`not (message.sender and
message.recipient)`) can never fire: both are required pydantic fields, so
it is omitted here. -/
def send_message (st : ServerState) (msg : Message) (now netNow : String) :
    ServerState × SendOutcome :=
  let sender := (msg.sender.ipAddress, msg.sender.uuid)
  let receiver := (msg.recipient.ipAddress, msg.recipient.uuid)
  if !(st.participants.contains sender && st.participants.contains receiver) then
    (st, SendOutcome.unregistered)
  else
    match st.chains.getLast? with
    | none =>
        let base : Block :=
          { index := 1, previousHash := "0", timestamp := now, message := msg,
            proof := 0, hash := "" }
        let newBlock := { base with hash := calculate_hash base }
        ({ st with chains := st.chains ++
          [ChainProposal.mk [newBlock] (networkJson netNow) statusJson] },
         SendOutcome.ok newBlock)
    | some lastChain =>
        match lastChain.blocks.getLast? with
        | none => (st, SendOutcome.indexError)
        | some prev =>
            let base : Block :=
              { index := prev.index + 1, previousHash := calculate_hash prev,
                timestamp := now, message := msg, proof := 0, hash := "" }
            let newBlock := { base with hash := calculate_hash base }
            ({ st with chains := st.chains.dropLast ++
              [{ lastChain with blocks := lastChain.blocks ++ [newBlock] }] },
             SendOutcome.ok newBlock)

/-- Outcome of `share_latest_chain`: the recomputed majority chain on
success, or HTTP 400 for a proposal failing `is_chain_valid`. -/
inductive ShareResult where
  | ok (latest : Option ChainProposal)
  | invalidChain

/-- `share_latest_chain(proposal)`: validate, append the proposal to the
store, recompute the majority chain. The rejection happens before any
mutation. -/
def share_latest_chain (st : ServerState) (proposal : ChainProposal) :
    ServerState × ShareResult :=
  if is_chain_valid proposal.blocks then
    let chains' := st.chains ++ [proposal]
    ({ st with chains := chains' }, ShareResult.ok (get_majority_chain chains'))
  else (st, ShareResult.invalidChain)

/-! ### Helper lemmas -/

/-- `calculate_hash` reads only the five hashed fields, so blocks agreeing
on them get the same digest. -/
theorem calculate_hash_congr (b1 b2 : Block) (h1 : b1.index = b2.index)
    (h2 : b1.previousHash = b2.previousHash) (h3 : b1.timestamp = b2.timestamp)
    (h4 : b1.message = b2.message) (h5 : b1.proof = b2.proof) :
    calculate_hash b1 = calculate_hash b2 := by
  unfold calculate_hash
  rw [h1, h2, h3, h4, h5]

/-- `new_block.hash = calculate_hash(new_block)` in `send_message`: stamp a
block with its own digest. -/
def withHash (b : Block) : Block := { b with hash := calculate_hash b }

theorem withHash_index (b : Block) : (withHash b).index = b.index := rfl

theorem withHash_previousHash (b : Block) : (withHash b).previousHash = b.previousHash := rfl

theorem withHash_timestamp (b : Block) : (withHash b).timestamp = b.timestamp := rfl

theorem withHash_message (b : Block) : (withHash b).message = b.message := rfl

theorem withHash_proof (b : Block) : (withHash b).proof = b.proof := rfl

theorem withHash_hash_eq (b : Block) : (withHash b).hash = calculate_hash b := rfl

/-- Overwriting the stored hash does not change the digest. -/
theorem calculate_hash_withHash (b : Block) :
    calculate_hash (withHash b) = calculate_hash b := rfl

/-- A stamped block passes the self-digest check. -/
theorem withHash_self_ok (b : Block) :
    (withHash b).hash = calculate_hash (withHash b) := calculate_hash_withHash b

theorem word32HexChars_length (w : Nat) : (word32HexChars w).length = 8 := rfl

/-- A hexdigest is always 64 characters, so it is never the one-character
string "0". -/
theorem sha256hex_length (msg : List Nat) : (sha256hex msg).length = 64 := by
  show (List.length _) = 64
  simp [sha256hex, List.length_append, word32HexChars_length]

theorem calculate_hash_length (b : Block) : (calculate_hash b).length = 64 :=
  sha256hex_length _

theorem calculate_hash_ne_zero_str (b : Block) : calculate_hash b ≠ "0" := by
  intro h
  have h64 := calculate_hash_length b
  rw [h] at h64
  exact absurd h64 (by decide)

/-- A single stamped genesis-shaped block is a valid chain. -/
theorem is_chain_valid_singleton (b : Block) (h1 : b.index = 1)
    (h2 : b.previousHash = "0") (h3 : b.hash = calculate_hash b) :
    is_chain_valid [b] = true := by
  simp [is_chain_valid, chain_links, h1, h2, h3]

/-- Appending a correctly linked, correctly stamped block keeps the
pairwise checks true. -/
theorem chain_links_snoc (p nb t : Block) (l : List Block)
    (hl : chain_links p l = true)
    (ht : (p :: l).getLast? = some t)
    (h1 : nb.previousHash = calculate_hash t)
    (h2 : nb.hash = calculate_hash nb) :
    chain_links p (l ++ [nb]) = true := by
  induction l generalizing p with
  | nil =>
      simp only [List.getLast?_singleton, Option.some.injEq] at ht
      subst ht
      simp [chain_links, h1, h2]
  | cons c rest ih =>
      simp only [chain_links, Bool.and_eq_true] at hl
      simp only [List.cons_append, chain_links, Bool.and_eq_true]
      refine ⟨⟨hl.1.1, hl.1.2⟩, ih c hl.2 ?_⟩
      rw [← ht, List.getLast?_cons_cons]

/-- Appending a block whose `previousHash` is the recomputed digest of the
tail, with a correct self digest, preserves chain validity. -/
theorem is_chain_valid_snoc (bs : List Block) (nb t : Block)
    (hv : is_chain_valid bs = true) (ht : bs.getLast? = some t)
    (h1 : nb.previousHash = calculate_hash t) (h2 : nb.hash = calculate_hash nb) :
    is_chain_valid (bs ++ [nb]) = true := by
  cases bs with
  | nil => simp at ht
  | cons b0 rest =>
      simp only [is_chain_valid, Bool.and_eq_true] at hv
      simp only [List.cons_append, is_chain_valid, Bool.and_eq_true]
      exact ⟨hv.1, chain_links_snoc b0 nb t rest hv.2 ht h1 h2⟩

/-- The linkage relation the validation loop checks between consecutive
blocks: correct parent digest and correct self digest. -/
def linkOK (a b : Block) : Prop :=
  b.previousHash = calculate_hash a ∧ b.hash = calculate_hash b

/-- The validation loop is exactly `Chain' linkOK` over the whole block
list. -/
theorem chain_links_iff_chain' (p : Block) (l : List Block) :
    chain_links p l = true ↔ List.Chain' linkOK (p :: l) := by
  induction l generalizing p with
  | nil => simp [chain_links]
  | cons c rest ih =>
      simp only [chain_links, Bool.and_eq_true, beq_iff_eq, List.chain'_cons, ih c, linkOK]

/-- The frequency scan of `firstMax` returns one of its candidates. -/
theorem firstMax_scan_mem (strs ks : List String) (k : String) :
    ks.foldl (fun best s => if strs.count best < strs.count s then s else best) k ∈ k :: ks := by
  induction ks generalizing k with
  | nil => simp
  | cons s rest ih =>
      simp only [List.foldl_cons]
      have hk : (if strs.count k < strs.count s then s else k) = s ∨
          (if strs.count k < strs.count s then s else k) = k := by
        by_cases hc : strs.count k < strs.count s <;> simp [hc]
      rcases List.mem_cons.mp (ih (if strs.count k < strs.count s then s else k)) with h | h
      · rw [h]
        rcases hk with he | he <;> simp [he]
      · simp [h]

/-- The frequency scan returns a candidate of maximal count. -/
theorem firstMax_scan_ge (strs ks : List String) (k : String) :
    ∀ x ∈ k :: ks, strs.count x ≤
      strs.count (ks.foldl (fun best s => if strs.count best < strs.count s then s else best) k) := by
  induction ks generalizing k with
  | nil =>
      intro x hx
      simp only [List.mem_singleton] at hx
      subst hx
      simp
  | cons s rest ih =>
      intro x hx
      simp only [List.foldl_cons]
      have h1 : strs.count k ≤ strs.count (if strs.count k < strs.count s then s else k) := by
        by_cases hc : strs.count k < strs.count s
        · rw [if_pos hc]
          omega
        · rw [if_neg hc]
      have h2 : strs.count s ≤ strs.count (if strs.count k < strs.count s then s else k) := by
        by_cases hc : strs.count k < strs.count s
        · rw [if_pos hc]
        · rw [if_neg hc]
          omega
      rcases List.mem_cons.mp hx with rfl | hx'
      · exact le_trans h1 (ih _ _ (List.mem_cons_self _ _))
      rcases List.mem_cons.mp hx' with rfl | hx''
      · exact le_trans h2 (ih _ _ (List.mem_cons_self _ _))
      · exact ih _ x (List.mem_cons_of_mem _ hx'')

/-- `Counter`'s key list holds exactly the distinct strings of the input
(stated for the fuel-based recursion, any sufficient fuel). -/
theorem mem_counterKeysAux :
    ∀ (fuel : Nat) (l : List String), l.length ≤ fuel →
      ∀ s, s ∈ counterKeysAux fuel l ↔ s ∈ l := by
  intro fuel
  induction fuel with
  | zero =>
      intro l h s
      cases l with
      | nil => simp [counterKeysAux]
      | cons a rest => simp at h
  | succ n ih =>
      intro l h s
      cases l with
      | nil => simp [counterKeysAux]
      | cons a rest =>
          simp only [counterKeysAux]
          have hle : (rest.filter (fun t => !(t == a))).length ≤ n :=
            le_trans (List.length_filter_le _ _) (by simpa using h)
          by_cases hs : s = a
          · subst hs; simp
          · simp only [List.mem_cons, ih _ hle s, List.mem_filter]
            constructor
            · rintro (rfl | ⟨h2, _⟩)
              · simp
              · exact Or.inr h2
            · rintro (rfl | h2)
              · exact Or.inl rfl
              · exact Or.inr ⟨h2, by simpa using hs⟩

/-- `Counter`'s key list holds exactly the distinct strings of the input. -/
theorem mem_counterKeys (l : List String) (s : String) : s ∈ counterKeys l ↔ s ∈ l :=
  mem_counterKeysAux l.length l le_rfl s

/-- `find?` over the stored chains succeeds for any serialization present
and returns a chain with that serialization. -/
theorem find_chain_of_mem (chains : List ChainProposal) (w : String)
    (hw : w ∈ chains.map dumpsChain) :
    ∃ c, chains.find? (fun c => dumpsChain c == w) = some c ∧ dumpsChain c = w := by
  induction chains with
  | nil => simp at hw
  | cons c rest ih =>
      by_cases hc : dumpsChain c = w
      · exact ⟨c, by simp [List.find?, hc], hc⟩
      · have hw' : w ∈ rest.map dumpsChain := by
          simp only [List.map_cons, List.mem_cons] at hw
          rcases hw with h | h
          · exact absurd h.symm hc
          · exact h
        obtain ⟨d, hd1, hd2⟩ := ih hw'
        refine ⟨d, ?_, hd2⟩
        have hfalse : (dumpsChain c == w) = false := beq_eq_false_iff_ne.mpr hc
        simp only [List.find?, hfalse]
        exact hd1

/-- The winner of `get_majority_chain` is a stored chain whose canonical
serialization has maximal occurrence count among the proposals. -/
theorem get_majority_chain_max (chains : List ChainProposal) (c : ChainProposal)
    (h : get_majority_chain chains = some c) :
    c ∈ chains ∧ ∀ c' ∈ chains,
      (chains.map dumpsChain).count (dumpsChain c') ≤
        (chains.map dumpsChain).count (dumpsChain c) := by
  cases hch : chains with
  | nil => subst hch; simp [get_majority_chain] at h
  | cons d rest =>
      subst hch
      rw [get_majority_chain] at h
      rw [show counterKeys ((d :: rest).map dumpsChain) =
            dumpsChain d :: counterKeys
              (((rest.map dumpsChain)).filter (fun t => !(t == dumpsChain d))) from by
        rw [List.map_cons, counterKeys_cons]] at h
      rw [firstMax] at h
      simp only at h
      constructor
      · exact List.mem_of_find?_eq_some h
      · intro c' hc'
        have hcw : dumpsChain c =
            (counterKeys (((rest.map dumpsChain)).filter (fun t => !(t == dumpsChain d)))).foldl
              (fun best s =>
                if ((d :: rest).map dumpsChain).count best <
                    ((d :: rest).map dumpsChain).count s then s else best)
              (dumpsChain d) := by
          have := List.find?_some h
          exact beq_iff_eq.mp this
        rw [hcw]
        apply firstMax_scan_ge
        rw [show dumpsChain d :: counterKeys
              (((rest.map dumpsChain)).filter (fun t => !(t == dumpsChain d))) =
            counterKeys ((d :: rest).map dumpsChain) from by rw [List.map_cons, counterKeys_cons]]
        rw [mem_counterKeys]
        exact List.mem_map_of_mem dumpsChain hc'

/-- `get_majority_chain` succeeds on every non-empty store. -/
theorem get_majority_chain_some (chains : List ChainProposal) (hne : chains ≠ []) :
    ∃ c, get_majority_chain chains = some c ∧
      dumpsChain c ∈ chains.map dumpsChain := by
  cases chains with
  | nil => exact absurd rfl hne
  | cons d rest =>
      rw [get_majority_chain]
      rw [show counterKeys ((d :: rest).map dumpsChain) =
            dumpsChain d :: counterKeys
              (((rest.map dumpsChain)).filter (fun t => !(t == dumpsChain d))) from by
        rw [List.map_cons, counterKeys_cons]]
      rw [firstMax]
      simp only
      set w := (counterKeys (((rest.map dumpsChain)).filter (fun t => !(t == dumpsChain d)))).foldl
        (fun best s =>
          if ((d :: rest).map dumpsChain).count best <
              ((d :: rest).map dumpsChain).count s then s else best)
        (dumpsChain d) with hw
      have hwmem : w ∈ (d :: rest).map dumpsChain := by
        have h1 := firstMax_scan_mem ((d :: rest).map dumpsChain)
          (counterKeys (((rest.map dumpsChain)).filter (fun t => !(t == dumpsChain d))))
          (dumpsChain d)
        rw [← hw] at h1
        rw [show dumpsChain d :: counterKeys
              (((rest.map dumpsChain)).filter (fun t => !(t == dumpsChain d))) =
            counterKeys ((d :: rest).map dumpsChain) from by rw [List.map_cons, counterKeys_cons]] at h1
        exact (mem_counterKeys _ _).mp h1
      obtain ⟨c, hc1, hc2⟩ := find_chain_of_mem (d :: rest) w hwmem
      exact ⟨c, hc1, by rw [hc2]; exact hwmem⟩

/-- The Validator policy as the spec words it, written from the spec's
checklist (non-empty; genesis shape at position 0; for every later
position, parent-digest linkage and self-digest consistency), for
comparison with the source-translated `is_chain_valid`. -/
def validator_spec (bs : List Block) : Prop :=
  bs ≠ [] ∧
  (∀ (h : 0 < bs.length),
      (bs.get ⟨0, h⟩).index = 1 ∧ (bs.get ⟨0, h⟩).previousHash = "0" ∧
        (bs.get ⟨0, h⟩).hash = calculate_hash (bs.get ⟨0, h⟩)) ∧
  (∀ (i : Nat) (h : i + 1 < bs.length),
      (bs.get ⟨i + 1, h⟩).previousHash = calculate_hash (bs.get ⟨i, Nat.lt_of_succ_lt h⟩) ∧
        (bs.get ⟨i + 1, h⟩).hash = calculate_hash (bs.get ⟨i + 1, h⟩))

/-- `is_chain_valid` decides exactly `validator_spec`. -/
theorem is_chain_valid_eq_spec (bs : List Block) :
    is_chain_valid bs = true ↔ validator_spec bs := by
  cases bs with
  | nil =>
      simp [is_chain_valid, validator_spec]
  | cons b0 rest =>
      simp only [is_chain_valid, Bool.and_eq_true, beq_iff_eq,
        chain_links_iff_chain' b0 rest, List.chain'_iff_get, validator_spec]
      constructor
      · rintro ⟨⟨⟨hi, hp⟩, hh⟩, hlinks⟩
        refine ⟨by simp, fun h => ?_, fun i h => ?_⟩
        · simpa using ⟨hi, hp, hh⟩
        · have h' : i < (b0 :: rest).length - 1 := by
            simp only [List.length_cons] at h ⊢
            omega
          have := hlinks i h'
          exact ⟨this.1, this.2⟩
      · rintro ⟨hne, hgen, hlink⟩
        have hg := hgen (by simp)
        simp only [List.get_cons_zero] at hg
        refine ⟨⟨⟨hg.1, hg.2.1⟩, hg.2.2⟩, fun i h => ?_⟩
        have h' : i + 1 < (b0 :: rest).length := by
          simp only [List.length_cons] at h ⊢
          omega
        have := hlink i h'
        exact ⟨this.1, this.2⟩

/-! ### Concrete data for counterexamples and witnesses -/

/-- A two-member participant registry. -/
def exParticipants : List (String × String) := [("10.0.0.1", "u-1"), ("10.0.0.2", "u-2")]

/-- A message between the two registered participants. -/
def exMsg : Message :=
  { sender := { ipAddress := "10.0.0.1", uuid := "u-1" },
    recipient := { ipAddress := "10.0.0.2", uuid := "u-2" },
    content := "hello", timestamp := "2024-05-01T10:00:01+00:00" }

/-- The empty server state. -/
def emptyState : ServerState := ⟨[], []⟩

/-- A proposal with no blocks at all; `is_chain_valid` rejects it. -/
def badProposal : ChainProposal := ⟨[], Json.null, Json.null⟩

/-- Genesis-shaped first block of the index-gap chain. -/
def c6b0 : Block :=
  withHash
    { index := 1, previousHash := "0", timestamp := "2024-05-01T10:00:02+00:00",
      message := exMsg, proof := 0, hash := "" }

/-- Second block of the index-gap chain: correctly linked and stamped, but
with index 7 instead of 2. -/
def c6b1 : Block :=
  withHash
    { index := 7, previousHash := calculate_hash c6b0,
      timestamp := "2024-05-01T10:00:03+00:00", message := exMsg, proof := 0, hash := "" }

/-- A block with fixed literal fields (stored hash an arbitrary string). -/
def blkA : Block :=
  { index := 1, previousHash := "0", timestamp := "TA", message := exMsg, proof := 0,
    hash := "hA" }

/-- A second distinct literal block. -/
def blkL : Block :=
  { index := 2, previousHash := "pL", timestamp := "TL", message := exMsg, proof := 0,
    hash := "hL" }

/-- Resolver proposal A: one block. -/
def cA : ChainProposal := ⟨[blkA], Json.null, Json.null⟩

/-- Resolver proposal B, distinct from A. -/
def cB : ChainProposal := ⟨[], Json.str "other", Json.null⟩

/-- Resolver proposal one entry longer than A. -/
def cLong : ChainProposal := ⟨[blkA, blkL], Json.null, Json.null⟩

/-- Tie proposal A for the resolver tie instance. -/
def c9A : ChainProposal := ⟨[], Json.str "a", Json.null⟩

/-- Tie proposal B for the resolver tie instance. -/
def c9B : ChainProposal := ⟨[], Json.str "b", Json.null⟩

/-- Concrete block for the hasher-purity witness. -/
def c7base : Block :=
  { index := 3, previousHash := "p", timestamp := "T7", message := exMsg, proof := 0,
    hash := "" }

/-! ### Claims -/

/-- Claim C1 (refuted by the code): the spec promises that every ledger the
Append Engine produces from genesis validates, but `create_genesis` stores
the literal hash "0" in the genesis block while `is_chain_valid` demands
the recomputed 64-character digest — so the chain the service itself
creates, and every extension of it, is rejected by its own validator. -/
theorem create_genesis_chain_invalid :
    ∀ (st : ServerState) (ts mts netTs : String),
      st.chains = [] → st.participants = [] →
      create_genesis st ts mts netTs =
        ({ st with chains :=
            [ChainProposal.mk [genesis_block ts mts] (networkJson netTs) statusJson] },
          true) ∧
      ∀ tail, is_chain_valid (genesis_block ts mts :: tail) = false := by
  intro st ts mts netTs hc hp
  constructor
  · simp [create_genesis, hc, hp]
  · intro tail
    have hne : ((genesis_block ts mts).hash == calculate_hash (genesis_block ts mts)) =
        false := by
      have h0 : (genesis_block ts mts).hash = "0" := rfl
      rw [h0]
      exact beq_eq_false_iff_ne.mpr fun h => calculate_hash_ne_zero_str _ h.symm
    simp [is_chain_valid, hne]

/-- Witness for C1: on the empty state the genesis chain built by
`create_genesis` fails validation. -/
theorem create_genesis_chain_invalid_witness :
    is_chain_valid [genesis_block "t1" "t2"] = false :=
  (create_genesis_chain_invalid emptyState "t1" "t2" "t3" rfl rfl).2 []

/-- Claim C2: the Validator's verdict is exactly the conjunction of the
specified checks (`validator_spec`); in particular the empty ledger is
rejected, and so is any ledger whose first entry has index other than 1 or
previousHash other than "0". -/
theorem is_chain_valid_iff_spec :
    (∀ bs, is_chain_valid bs = true ↔ validator_spec bs) ∧
    is_chain_valid [] = false ∧
    (∀ (b0 : Block) (rest : List Block), b0.index ≠ 1 ∨ b0.previousHash ≠ "0" →
      is_chain_valid (b0 :: rest) = false) := by
  refine ⟨is_chain_valid_eq_spec, rfl, fun b0 rest h => ?_⟩
  rcases h with h | h
  · have : (b0.index == 1) = false := beq_eq_false_iff_ne.mpr h
    simp [is_chain_valid, this]
  · have : (b0.previousHash == "0") = false := beq_eq_false_iff_ne.mpr h
    simp [is_chain_valid, this]

/-- Witness for C2: a ledger opening at index 2 is rejected. -/
theorem is_chain_valid_iff_spec_witness :
    is_chain_valid [{ blkA with index := 2 }] = false :=
  is_chain_valid_iff_spec.2.2 { blkA with index := 2 } [] (Or.inl (by decide))

/-- `send_message` bails out before any state change when the registration
check fails. -/
theorem send_message_unregistered (st : ServerState) (msg : Message) (now netNow : String)
    (h : (st.participants.contains (msg.sender.ipAddress, msg.sender.uuid) &&
      st.participants.contains (msg.recipient.ipAddress, msg.recipient.uuid)) = false) :
    send_message st msg now netNow = (st, SendOutcome.unregistered) := by
  simp only [send_message]
  rw [h]
  rfl

/-- Claim C5: a rejected proposal and a message with an unregistered
participant leave the whole server state — chains, their block lists, and
the participants set — exactly as it was: both handlers signal the failure
before any mutation. -/
theorem failure_leaves_state_unchanged :
    ∀ (st : ServerState) (p : ChainProposal) (msg : Message) (now netNow : String),
      (is_chain_valid p.blocks = false →
        share_latest_chain st p = (st, ShareResult.invalidChain)) ∧
      (st.participants.contains (msg.sender.ipAddress, msg.sender.uuid) = false ∨
          st.participants.contains (msg.recipient.ipAddress, msg.recipient.uuid) = false →
        send_message st msg now netNow = (st, SendOutcome.unregistered)) := by
  intro st p msg now netNow
  refine ⟨fun h => ?_, fun h => ?_⟩
  · simp [share_latest_chain, h]
  · apply send_message_unregistered
    rcases h with h | h
    · rw [h, Bool.false_and]
    · rw [h, Bool.and_false]

/-- Witness for C5: the empty proposal is rejected and the unregistered
message refused, both without touching the empty state. -/
theorem failure_leaves_state_unchanged_witness :
    share_latest_chain emptyState badProposal = (emptyState, ShareResult.invalidChain) ∧
    send_message emptyState exMsg "t1" "t2" = (emptyState, SendOutcome.unregistered) :=
  ⟨(failure_leaves_state_unchanged emptyState badProposal exMsg "t1" "t2").1 rfl,
   (failure_leaves_state_unchanged emptyState badProposal exMsg "t1" "t2").2 (Or.inl rfl)⟩

/-- Claim C6: the Validator does not independently enforce strict +1 index
sequencing — the two-block chain `[c6b0, c6b1]` passes every digest check
and is accepted although its second index is 7, not 2. -/
theorem validator_accepts_index_gap :
    is_chain_valid [c6b0, c6b1] = true ∧ c6b1.index ≠ c6b0.index + 1 := by
  constructor
  · have h0 : c6b0.hash = calculate_hash c6b0 := withHash_self_ok _
    have h1 : c6b1.hash = calculate_hash c6b1 := withHash_self_ok _
    have hp : c6b1.previousHash = calculate_hash c6b0 := by
      show (withHash _).previousHash = _
      rw [withHash_previousHash]
    simp only [is_chain_valid, chain_links, h0, h1, hp, beq_self_eq_true, Bool.and_true,
      Bool.true_and]
    rfl
  · have e1 : c6b1.index = 7 := by
      show (withHash _).index = 7
      rw [withHash_index]
    have e0 : c6b0.index = 1 := by
      show (withHash _).index = 1
      rw [withHash_index]
    rw [e1, e0]
    decide

/-- Claim C7: the Canonical Hasher is a pure function of exactly the five
hashed fields: any two blocks agreeing on index, previousHash, timestamp,
message and proof — whatever their stored hash fields — receive identical
digests, and repeated calls on equal inputs (the case `b1 = b2`) trivially
agree. -/
theorem calculate_hash_five_fields :
    ∀ b1 b2 : Block, b1.index = b2.index → b1.previousHash = b2.previousHash →
      b1.timestamp = b2.timestamp → b1.message = b2.message → b1.proof = b2.proof →
      calculate_hash b1 = calculate_hash b2 :=
  fun b1 b2 h1 h2 h3 h4 h5 => calculate_hash_congr b1 b2 h1 h2 h3 h4 h5

/-- Witness for C7: two blocks differing only in the stored hash field get
the same digest. -/
theorem calculate_hash_five_fields_witness :
    calculate_hash { c7base with hash := "aa" } = calculate_hash { c7base with hash := "bb" } :=
  calculate_hash_five_fields _ _ rfl rfl rfl rfl rfl

/-- Claim C8: the Resolver called with no proposals returns the documented
empty result (the model's `none`, the service's empty dict) rather than
failing — `get_majority_chain` is total and this is its value at `[]`. -/
theorem get_majority_chain_empty_none :
    get_majority_chain [] = none := rfl

/-- Claim C9: the Resolver is deterministic in its input — equal proposal
lists give equal results — and on the tied input `[c9A, c9B]` (distinct
serializations, equal counts) it returns the first-encountered proposal
`c9A`, stably. -/
theorem get_majority_chain_deterministic :
    (∀ cs1 cs2 : List ChainProposal, cs1 = cs2 →
        get_majority_chain cs1 = get_majority_chain cs2) ∧
    get_majority_chain [c9A, c9B] = some c9A ∧
    ([c9A, c9B].map dumpsChain).count (dumpsChain c9A) =
      ([c9A, c9B].map dumpsChain).count (dumpsChain c9B) ∧
    dumpsChain c9A ≠ dumpsChain c9B := by
  refine ⟨fun cs1 cs2 h => by rw [h], rfl, rfl, by decide⟩

/-- Witness for C9: determinism applied at a concrete input. -/
theorem get_majority_chain_deterministic_witness :
    get_majority_chain [c9A] = get_majority_chain [c9A] :=
  get_majority_chain_deterministic.1 [c9A] [c9A] rfl

/-- Prior tail block for the append-correctness witness. -/
def wPrior : Block :=
  withHash
    { index := 1, previousHash := "0", timestamp := "2024-05-01T09:00:00+00:00",
      message := exMsg, proof := 0, hash := "" }

/-- Prior one-block chain for the append-correctness witness. -/
def wChain : ChainProposal := ⟨[wPrior], Json.null, Json.null⟩

/-- Server state holding the prior chain and the registry. -/
def wState : ServerState := ⟨[wChain], exParticipants⟩

/-- Server state with registered participants but no chain yet. -/
def w10State : ServerState := ⟨[], exParticipants⟩

/-- Claim C3: `send_message` appends one block whose index is the prior
tail's index plus one, whose previousHash is the recomputed digest of the
prior tail, with proof 0 and a correct self digest, growing the ledger by
exactly one entry; validity of the prior block list is preserved. When no
ledger exists the one new block starts at index 1 with previousHash "0". -/
theorem send_message_append_correct :
    ∀ (st : ServerState) (msg : Message) (now netNow : String) (lastC : ChainProposal)
      (prev : Block),
      (st.participants.contains (msg.sender.ipAddress, msg.sender.uuid) = true →
        st.participants.contains (msg.recipient.ipAddress, msg.recipient.uuid) = true →
        st.chains.getLast? = some lastC →
        lastC.blocks.getLast? = some prev →
        ∃ nb, send_message st msg now netNow =
            ({ st with chains := st.chains.dropLast ++
                [{ lastC with blocks := lastC.blocks ++ [nb] }] }, SendOutcome.ok nb) ∧
          nb.index = prev.index + 1 ∧ nb.previousHash = calculate_hash prev ∧
          nb.proof = 0 ∧ nb.hash = calculate_hash nb ∧
          (lastC.blocks ++ [nb]).length = lastC.blocks.length + 1 ∧
          (is_chain_valid lastC.blocks = true →
            is_chain_valid (lastC.blocks ++ [nb]) = true)) ∧
      (st.participants.contains (msg.sender.ipAddress, msg.sender.uuid) = true →
        st.participants.contains (msg.recipient.ipAddress, msg.recipient.uuid) = true →
        st.chains = [] →
        ∃ nb, send_message st msg now netNow =
            ({ st with chains := [ChainProposal.mk [nb] (networkJson netNow) statusJson] },
              SendOutcome.ok nb) ∧
          nb.index = 1 ∧ nb.previousHash = "0" ∧ nb.proof = 0 ∧
          nb.hash = calculate_hash nb) := by
  intro st msg now netNow lastC prev
  constructor
  · intro hs hr hlast hprev
    refine ⟨withHash
        { index := prev.index + 1, previousHash := calculate_hash prev,
          timestamp := now, message := msg, proof := 0, hash := "" },
      ?_, rfl, rfl, rfl, withHash_self_ok _, by simp, fun hv => ?_⟩
    · simp only [send_message, hs, hr, Bool.and_self, Bool.not_true, Bool.false_eq_true,
        if_false, hlast, hprev, withHash]
    · exact is_chain_valid_snoc _ _ prev hv hprev rfl (withHash_self_ok _)
  · intro hs hr hc
    refine ⟨withHash
        { index := 1, previousHash := "0", timestamp := now, message := msg,
          proof := 0, hash := "" },
      ?_, rfl, rfl, rfl, withHash_self_ok _⟩
    simp only [send_message, hs, hr, Bool.and_self, Bool.not_true, Bool.false_eq_true,
      if_false, hc, List.getLast?_nil, List.nil_append, withHash]

/-- Witness for C3: appending to a concrete valid one-block chain. -/
theorem send_message_append_correct_witness :
    ∃ nb, send_message wState exMsg "TS" "TN" =
        ({ wState with chains := wState.chains.dropLast ++
            [{ wChain with blocks := wChain.blocks ++ [nb] }] }, SendOutcome.ok nb) ∧
      nb.index = wPrior.index + 1 ∧ nb.previousHash = calculate_hash wPrior ∧
      nb.proof = 0 ∧ nb.hash = calculate_hash nb ∧
      (wChain.blocks ++ [nb]).length = wChain.blocks.length + 1 ∧
      (is_chain_valid wChain.blocks = true → is_chain_valid (wChain.blocks ++ [nb]) = true) :=
  (send_message_append_correct wState exMsg "TS" "TN" wChain wPrior).1 rfl rfl rfl rfl

set_option maxRecDepth 8192 in
/-- Claim C4: the Resolver implements a plurality vote over whole-ledger
serializations: on any non-empty store it returns a stored chain whose
canonical serialization count is maximal; on `[A, A, B]` it returns `A`,
and a chain submitted more often beats one that is one entry longer. -/
theorem get_majority_chain_plurality :
    (∀ (chains : List ChainProposal), chains ≠ [] →
        ∃ c, get_majority_chain chains = some c ∧ c ∈ chains ∧
          ∀ c' ∈ chains, (chains.map dumpsChain).count (dumpsChain c') ≤
            (chains.map dumpsChain).count (dumpsChain c)) ∧
    (get_majority_chain [cA, cA, cB] = some cA ∧ cA ≠ cB) ∧
    (get_majority_chain [cA, cA, cLong] = some cA ∧
      cLong.blocks.length = cA.blocks.length + 1) := by
  refine ⟨fun chains hne => ?_, ⟨rfl, ?_⟩, ⟨rfl, rfl⟩⟩
  · obtain ⟨c, hc, _⟩ := get_majority_chain_some chains hne
    have hmax := get_majority_chain_max chains c hc
    exact ⟨c, hc, hmax.1, hmax.2⟩
  · intro h
    have : cA.blocks = cB.blocks := by rw [h]
    simp [cA, cB] at this

/-- Witness for C4: the plurality property applied at a one-proposal
store. -/
theorem get_majority_chain_plurality_witness :
    ∃ c, get_majority_chain [cB] = some c ∧ c ∈ [cB] ∧
      ∀ c' ∈ [cB], ([cB].map dumpsChain).count (dumpsChain c') ≤
        ([cB].map dumpsChain).count (dumpsChain c) :=
  get_majority_chain_plurality.1 [cB] (by simp)

/-- Claim C10: `send_message` on an empty chain store (with registered
participants) creates a fresh one-block ledger at index 1 with
previousHash "0" and a correct self digest, and `is_chain_valid` accepts
it — although its single block carries the user's message, not the
genesis sentinel. -/
theorem send_message_bootstrap :
    ∀ (st : ServerState) (msg : Message) (now netNow : String),
      st.participants.contains (msg.sender.ipAddress, msg.sender.uuid) = true →
      st.participants.contains (msg.recipient.ipAddress, msg.recipient.uuid) = true →
      st.chains = [] →
      ∃ nb, send_message st msg now netNow =
          ({ st with chains := [ChainProposal.mk [nb] (networkJson netNow) statusJson] },
            SendOutcome.ok nb) ∧
        nb.index = 1 ∧ nb.previousHash = "0" ∧ nb.message = msg ∧
        nb.hash = calculate_hash nb ∧ is_chain_valid [nb] = true := by
  intro st msg now netNow hs hr hc
  refine ⟨withHash
      { index := 1, previousHash := "0", timestamp := now, message := msg,
        proof := 0, hash := "" },
    ?_, rfl, rfl, rfl, withHash_self_ok _, ?_⟩
  · simp only [send_message, hs, hr, Bool.and_self, Bool.not_true, Bool.false_eq_true,
      if_false, hc, List.getLast?_nil, List.nil_append, withHash]
  · exact is_chain_valid_singleton _ rfl rfl (withHash_self_ok _)

/-- Witness for C10: bootstrapping from the empty store with the concrete
registry and message. -/
theorem send_message_bootstrap_witness :
    ∃ nb, send_message w10State exMsg "TS" "TN" =
        ({ w10State with chains := [ChainProposal.mk [nb] (networkJson "TN") statusJson] },
          SendOutcome.ok nb) ∧
      nb.index = 1 ∧ nb.previousHash = "0" ∧ nb.message = exMsg ∧
      nb.hash = calculate_hash nb ∧ is_chain_valid [nb] = true :=
  send_message_bootstrap w10State exMsg "TS" "TN" rfl rfl rfl

end DatalinkShare
